import Mathlib

set_option maxRecDepth 20000
set_option maxHeartbeats 4000000

/-!
Verification of the `rmlui/6.x` Conan recipe (`recipes/rmlui/6.x/conanfile.py`).

Strings are modelled as `List Char`.  Python's `str.replace` and substring
test (`in`) are modelled by structurally recursive functions so that every
definition is executable by the kernel.
-/

namespace RmlUi

/-- Python's substring test `needle in haystack` on strings. -/
def containsSub : List Char → List Char → Bool
  | n, [] => n.isEmpty
  | n, c :: rest => (n.isPrefixOf (c :: rest) || containsSub n rest)

/-- Fuelled worker for Python's `str.replace`: scans left to right, replacing
each non-overlapping occurrence of `p` by `r`.  The fuel only serves to make
the recursion structural; `fuel = l.length` is always enough because every
step consumes at least one character of `l`. -/
def replaceAllF (p r : List Char) : Nat → List Char → List Char
  | _, [] => []
  | 0, l => l
  | fuel + 1, c :: rest =>
    if p.isPrefixOf (c :: rest) then r ++ replaceAllF p r fuel (rest.drop (p.length - 1))
    else c :: replaceAllF p r fuel rest

/-- Python's `content.replace(p, r)` (for the non-empty patterns used by the
recipe). -/
def replaceAll (p r l : List Char) : List Char :=
  replaceAllF p r l.length l

/-- Fuelled worker counting non-overlapping occurrences of `p`, scanning left
to right exactly like `replaceAllF` (Python's `str.count`). -/
def countOccsF (p : List Char) : Nat → List Char → Nat
  | _, [] => 0
  | 0, _ => 0
  | fuel + 1, c :: rest =>
    if p.isPrefixOf (c :: rest) then countOccsF p fuel (rest.drop (p.length - 1)) + 1
    else countOccsF p fuel rest

/-- Number of non-overlapping occurrences of `p` in `l`, leftmost first. -/
def countOccs (p l : List Char) : Nat :=
  countOccsF p l.length l

/- ### Constants of `RmlUiConan.source` -/

/-- `marker = "unset(rmlui_core_TYPE)"` — the anchor in `Source/Core/CMakeLists.txt`. -/
def marker : List Char := "unset(rmlui_core_TYPE)".toList

/-- `helper_tag = "Conan helper: thirdparty container include dirs"`. -/
def helper_tag : List Char := "Conan helper: thirdparty container include dirs".toList

/-- The f-string `injection` of `RmlUiConan.source`, transcribed byte for byte
(`{helper_tag}` interpolated, `${{...}}` rendered as a literal dollar-brace). -/
def injection : List Char :=
  "\n                # --- ".toList ++ helper_tag ++ " ---\n".toList ++
  "if(RMLUI_THIRDPARTY_CONTAINERS)\n".toList ++
  "find_path(ROBIN_HOOD_INCLUDE_DIR robin_hood.h)\n".toList ++
  "if(NOT ROBIN_HOOD_INCLUDE_DIR)\n".toList ++
  "message(FATAL_ERROR \"RmlUi: robin_hood.h not found. Provide robin-hood-hashing (e.g. via Conan).\")\n".toList ++
  "endif()\n".toList ++
  "target_include_directories(rmlui_core PUBLIC ${ROBIN_HOOD_INCLUDE_DIR})\n".toList ++
  "\n".toList ++
  "find_path(ITLIB_INCLUDE_DIR itlib/flat_map.hpp)\n".toList ++
  "if(NOT ITLIB_INCLUDE_DIR)\n".toList ++
  "message(FATAL_ERROR \"RmlUi: itlib headers not found. Provide itlib (e.g. via Conan).\")\n".toList ++
  "endif()\n".toList ++
  "target_include_directories(rmlui_core PUBLIC ${ITLIB_INCLUDE_DIR})\n".toList ++
  "endif()\n".toList ++
  "                # --- end ".toList ++ helper_tag ++ " ---\n".toList ++
  "                ".toList

/-- `core_cmake = os.path.join(self.source_folder, "Source", "Core", "CMakeLists.txt")`. -/
def core_cmake (source_folder : List Char) : List Char :=
  source_folder ++ "/Source/Core/CMakeLists.txt".toList

/-- The `ConanInvalidConfiguration` message
`f"Upstream changed; cannot patch {core_cmake} (marker \x27{marker}\x27 not found)"`. -/
def patch_err_msg (path : List Char) : List Char :=
  "Upstream changed; cannot patch ".toList ++ path ++
  " (marker \x27".toList ++ marker ++ "\x27 not found)".toList

/-- Outcome of the patch portion of `RmlUiConan.source`: the raised
`ConanInvalidConfiguration` message, if any; the content of
`Source/Core/CMakeLists.txt` afterwards; and whether `save` was called. -/
structure PatchOutcome where
  raised : Option (List Char)
  content : List Char
  saved : Bool
deriving DecidableEq

/-- The patch logic of `RmlUiConan.source` (after the download), acting on the
content of `Source/Core/CMakeLists.txt`:

```
if helper_tag not in content:
    if marker not in content:
        raise ConanInvalidConfiguration(...)
    content = content.replace(marker, marker + injection)
    save(self, core_cmake, content)
``` -/
def sourcePatchStep (source_folder content : List Char) : PatchOutcome :=
  if containsSub helper_tag content = false then
    if containsSub marker content = false then
      { raised := some (patch_err_msg (core_cmake source_folder)),
        content := content, saved := false }
    else
      { raised := none,
        content := replaceAll marker (marker ++ injection) content,
        saved := true }
  else
    { raised := none, content := content, saved := false }

/- ### Options, requirements, toolchain and package metadata -/

/-- Domain of the `font_engine` option: `["freetype", "none"]`. -/
inductive FontEngine
  | freetype
  | noneEngine
deriving DecidableEq

/-- Python `str(self.options.font_engine)`. -/
def FontEngine.str : FontEngine → String
  | .freetype => "freetype"
  | .noneEngine => "none"

/-- The effective option set of the recipe.  `fPIC` is an `Option Bool`
because `config_options` deletes it on Windows (`none` = absent). -/
structure OptionValues where
  shared : Bool
  fPIC : Option Bool
  build_samples : Bool
  with_lua_bindings : Bool
  font_engine : FontEngine
  matrix_row_major : Bool
  with_thirdparty_containers : Bool
  enable_precompiled_headers : Bool
  enable_tracy_profiling : Bool
deriving DecidableEq

/-- `RmlUiConan.default_options`. -/
def default_options : OptionValues :=
  { shared := false
    fPIC := some true
    build_samples := false
    with_lua_bindings := false
    font_engine := FontEngine.freetype
    matrix_row_major := false
    with_thirdparty_containers := true
    enable_precompiled_headers := true
    enable_tracy_profiling := false }

/-- `RmlUiConan.config_options`: on Windows, `del self.options.fPIC`. -/
def config_options (osName : String) (opts : OptionValues) : OptionValues :=
  if osName = "Windows" then { opts with fPIC := none } else opts

/-- `RmlUiConan.requirements`: each `self.requires("name/version")` call is
recorded as a `(name, version)` pair, in call order. -/
def requirements (o : OptionValues) : List (String × String) :=
  (if o.font_engine.str = "freetype" then [("freetype", "[>=2.10.4 <3]")] else []) ++
  (if o.with_thirdparty_containers then
    [("robin-hood-hashing", "3.11.3"), ("itlib", "1.11.4")] else []) ++
  (if o.with_lua_bindings then [("lua", "5.4.7")] else [])

/-- A CMake toolchain variable value: Python `bool` or `str`. -/
inductive TCValue
  | bool (b : Bool)
  | str (s : String)
deriving DecidableEq

/-- The `tc.variables` assignments of `RmlUiConan.generate`, in program order. -/
def toolchain_variables (o : OptionValues) : List (String × TCValue) :=
  [("RMLUI_SAMPLES", TCValue.bool o.build_samples),
   ("RMLUI_LUA_BINDINGS", TCValue.bool o.with_lua_bindings),
   ("RMLUI_FONT_ENGINE", TCValue.str o.font_engine.str),
   ("RMLUI_MATRIX_ROW_MAJOR", TCValue.bool o.matrix_row_major),
   ("RMLUI_THIRDPARTY_CONTAINERS", TCValue.bool o.with_thirdparty_containers),
   ("RMLUI_PRECOMPILED_HEADERS", TCValue.bool o.enable_precompiled_headers),
   ("RMLUI_TRACY_PROFILING", TCValue.bool o.enable_tracy_profiling),
   ("RMLUI_WARNINGS_AS_ERRORS", TCValue.bool false)]

/-- Lookup in the toolchain variable mapping (the keys are pairwise distinct). -/
def tcGet (vars : List (String × TCValue)) (key : String) : Option TCValue :=
  (vars.find? (fun p => p.1 == key)).map Prod.snd

/-- The consumer-facing metadata published by `RmlUiConan.package_info`. -/
structure CppInfo where
  properties : List (String × String)
  libs : List String
  defines : List String
deriving DecidableEq

/-- `RmlUiConan.package_info`.  `collect_libs` inspects the install tree, so
the collected library names are a parameter. -/
def package_info (collected_libs : List String) (o : OptionValues) : CppInfo :=
  { properties := [("cmake_file_name", "RmlUi"), ("cmake_target_name", "RmlUi::RmlUi")]
    libs := collected_libs
    defines := if o.shared = false then ["RMLUI_STATIC_LIB"] else [] }

/-- Modelled from the spec: `check_min_cppstd` is the Conan framework helper
imported from `conan.tools.build` (not part of this repository); per the spec
it "fails configuration if below the minimum" supported language standard. -/
def check_min_cppstd (cppstd required : Nat) : Except String Unit :=
  if cppstd < required then
    Except.error "current cppstd does not meet the required minimum"
  else Except.ok ()

/-- `RmlUiConan.validate`: `compiler.cppstd` unset (falsy) skips the check,
otherwise `check_min_cppstd(self, 14)` runs. -/
def validate (cppstd : Option Nat) : Except String Unit :=
  match cppstd with
  | none => Except.ok ()
  | some v => check_min_cppstd v 14

/- ### Lemmas about the string primitives -/

theorem isPrefixOfIff {l₁ l₂ : List Char} : l₁.isPrefixOf l₂ = true ↔ l₁ <+: l₂ := by
  exact List.isPrefixOf_iff_prefix

theorem subConsIff {n : List Char} {c : Char} {rest : List Char} :
    n <:+: c :: rest ↔ n <+: c :: rest ∨ n <:+: rest := by
  constructor
  · rintro ⟨s, t, h⟩
    cases s with
    | nil => exact Or.inl ⟨t, by simpa using h⟩
    | cons c' s' =>
      rw [List.cons_append, List.cons_append, List.cons_eq_cons] at h
      exact Or.inr ⟨s', t, h.2⟩
  · rintro (⟨t, h⟩ | hi)
    · exact ⟨[], t, by simpa using h⟩
    · exact List.infix_cons hi
  -- `List.cons_eq_cons : a :: l = b :: m ↔ a = b ∧ l = m`

theorem containsSubIff {n l : List Char} : containsSub n l = true ↔ n <:+: l := by
  induction l with
  | nil => simp [containsSub, List.isEmpty_iff]
  | cons c rest ih => simp [containsSub, subConsIff, ih, isPrefixOfIff, Bool.or_eq_true]

theorem countOccsF_fuelInv (p : List Char) :
    ∀ (n : Nat) (l : List Char) (m : Nat), l.length ≤ n → l.length ≤ m →
      countOccsF p n l = countOccsF p m l := by
  intro n
  induction n with
  | zero =>
    intro l m hn _
    have hl : l = [] := List.eq_nil_of_length_eq_zero (Nat.le_zero.mp hn)
    subst hl
    cases m <;> rfl
  | succ n ih =>
    intro l m hn hm
    cases l with
    | nil => cases m <;> rfl
    | cons c rest =>
      cases m with
      | zero => simp at hm
      | succ m' =>
        show (if p.isPrefixOf (c :: rest) then
                countOccsF p n (rest.drop (p.length - 1)) + 1
              else countOccsF p n rest) =
            (if p.isPrefixOf (c :: rest) then
                countOccsF p m' (rest.drop (p.length - 1)) + 1
              else countOccsF p m' rest)
        have hrest : rest.length ≤ n := by simp at hn; omega
        have hrest' : rest.length ≤ m' := by simp at hm; omega
        have hdrop : (rest.drop (p.length - 1)).length ≤ rest.length := by
          simp [List.length_drop]
        by_cases hp : p.isPrefixOf (c :: rest) = true
        · rw [if_pos hp, if_pos hp,
            ih (rest.drop (p.length - 1)) m' (Nat.le_trans hdrop hrest)
              (Nat.le_trans hdrop hrest')]
        · rw [if_neg hp, if_neg hp, ih rest m' hrest hrest']

theorem replaceAllF_fuelInv (p r : List Char) :
    ∀ (n : Nat) (l : List Char) (m : Nat), l.length ≤ n → l.length ≤ m →
      replaceAllF p r n l = replaceAllF p r m l := by
  intro n
  induction n with
  | zero =>
    intro l m hn _
    have hl : l = [] := List.eq_nil_of_length_eq_zero (Nat.le_zero.mp hn)
    subst hl
    cases m <;> rfl
  | succ n ih =>
    intro l m hn hm
    cases l with
    | nil => cases m <;> rfl
    | cons c rest =>
      cases m with
      | zero => simp at hm
      | succ m' =>
        show (if p.isPrefixOf (c :: rest) then
                r ++ replaceAllF p r n (rest.drop (p.length - 1))
              else c :: replaceAllF p r n rest) =
            (if p.isPrefixOf (c :: rest) then
                r ++ replaceAllF p r m' (rest.drop (p.length - 1))
              else c :: replaceAllF p r m' rest)
        have hrest : rest.length ≤ n := by simp at hn; omega
        have hrest' : rest.length ≤ m' := by simp at hm; omega
        have hdrop : (rest.drop (p.length - 1)).length ≤ rest.length := by
          simp [List.length_drop]
        by_cases hp : p.isPrefixOf (c :: rest) = true
        · rw [if_pos hp, if_pos hp,
            ih (rest.drop (p.length - 1)) m' (Nat.le_trans hdrop hrest)
              (Nat.le_trans hdrop hrest')]
        · rw [if_neg hp, if_neg hp, ih rest m' hrest hrest']

theorem countOccs_cons (p : List Char) (c : Char) (rest : List Char) :
    countOccs p (c :: rest) =
      if p.isPrefixOf (c :: rest) then countOccs p (rest.drop (p.length - 1)) + 1
      else countOccs p rest := by
  show (if p.isPrefixOf (c :: rest) then
          countOccsF p rest.length (rest.drop (p.length - 1)) + 1
        else countOccsF p rest.length rest) = _
  have hdrop : (rest.drop (p.length - 1)).length ≤ rest.length := by
    simp [List.length_drop]
  by_cases hp : p.isPrefixOf (c :: rest) = true
  · rw [if_pos hp, if_pos hp,
      countOccsF_fuelInv p rest.length (rest.drop (p.length - 1))
        (rest.drop (p.length - 1)).length hdrop (Nat.le_refl _)]
    rfl
  · rw [if_neg hp, if_neg hp]
    rfl

theorem replaceAll_cons (p r : List Char) (c : Char) (rest : List Char) :
    replaceAll p r (c :: rest) =
      if p.isPrefixOf (c :: rest) then r ++ replaceAll p r (rest.drop (p.length - 1))
      else c :: replaceAll p r rest := by
  show (if p.isPrefixOf (c :: rest) then
          r ++ replaceAllF p r rest.length (rest.drop (p.length - 1))
        else c :: replaceAllF p r rest.length rest) = _
  have hdrop : (rest.drop (p.length - 1)).length ≤ rest.length := by
    simp [List.length_drop]
  by_cases hp : p.isPrefixOf (c :: rest) = true
  · rw [if_pos hp, if_pos hp,
      replaceAllF_fuelInv p r rest.length (rest.drop (p.length - 1))
        (rest.drop (p.length - 1)).length hdrop (Nat.le_refl _)]
    rfl
  · rw [if_neg hp, if_neg hp]
    rfl

theorem countOccs_eq_zero {p : List Char} (l : List Char) (h : ¬ p <:+: l) :
    countOccs p l = 0 := by
  induction l with
  | nil => rfl
  | cons c rest ih =>
    rw [countOccs_cons]
    have hnp : p.isPrefixOf (c :: rest) ≠ true := fun hp =>
      h (isPrefixOfIff.mp hp).isInfix
    rw [if_neg hnp]
    exact ih fun hi => h (subConsIff.mpr (Or.inr hi))

theorem replaceAll_eq_self (p r : List Char) (l : List Char)
    (h : countOccs p l = 0) : replaceAll p r l = l := by
  induction l with
  | nil => rfl
  | cons c rest ih =>
    rw [countOccs_cons] at h
    rw [replaceAll_cons]
    by_cases hp : p.isPrefixOf (c :: rest) = true
    · rw [if_pos hp] at h
      omega
    · rw [if_neg hp] at h
      rw [if_neg hp, ih h]

theorem countOccs_one_split (p r : List Char) (hp : p ≠ []) :
    ∀ l : List Char, countOccs p l = 1 →
      ∃ pre post, l = pre ++ p ++ post ∧ countOccs p post = 0 ∧
        replaceAll p r l = pre ++ r ++ post := by
  intro l
  induction l with
  | nil => intro h; exact absurd h (by simp [countOccs, countOccsF])
  | cons c rest ih =>
    intro h
    rw [countOccs_cons] at h
    by_cases hpre : p.isPrefixOf (c :: rest) = true
    · rw [if_pos hpre] at h
      have h0 : countOccs p (rest.drop (p.length - 1)) = 0 := by omega
      obtain ⟨t, ht⟩ := isPrefixOfIff.mp hpre
      have htdrop : rest.drop (p.length - 1) = t := by
        cases p with
        | nil => exact absurd rfl hp
        | cons a p' =>
          rw [List.cons_append, List.cons_eq_cons] at ht
          rw [← ht.2]
          simp [List.drop_left]
      refine ⟨[], rest.drop (p.length - 1), ?_, h0, ?_⟩
      · rw [htdrop, ← ht]
        simp
      · rw [replaceAll_cons, if_pos hpre, replaceAll_eq_self p r _ h0]
        simp
    · rw [if_neg hpre] at h
      obtain ⟨pre, post, hl, hpost, hrep⟩ := ih h
      refine ⟨c :: pre, post, by simp [hl], hpost, ?_⟩
      rw [replaceAll_cons, if_neg hpre, hrep]
      simp

theorem countOccs_append_of_no_match (x t : List Char) :
    ∀ a : List Char, (∀ s, s ≠ [] → s <:+ a → x.isPrefixOf (s ++ t) ≠ true) →
      countOccs x (a ++ t) = countOccs x t := by
  intro a
  induction a with
  | nil => intro _; simp
  | cons c a' ih =>
    intro H
    have h1 : x.isPrefixOf ((c :: a') ++ t) ≠ true :=
      H (c :: a') (by simp) List.suffix_rfl
    simp only [List.cons_append] at h1 ⊢
    rw [countOccs_cons, if_neg h1]
    exact ih fun s hs hsuf => H s hs (hsuf.trans (List.suffix_cons c a'))

theorem countOccs_self_append (x b : List Char) (hx : x ≠ [])
    (hb : ¬ x <:+: b) : countOccs x (x ++ b) = 1 := by
  cases x with
  | nil => exact absurd rfl hx
  | cons c x' =>
    rw [List.cons_append, countOccs_cons]
    have hpre : (c :: x').isPrefixOf (c :: (x' ++ b)) = true :=
      isPrefixOfIff.mpr ⟨b, by simp⟩
    rw [if_pos hpre]
    have hdrop : (x' ++ b).drop ((c :: x').length - 1) = b := by
      simp [List.drop_left]
    rw [hdrop, countOccs_eq_zero b hb]

theorem countOccs_sandwich (x a b : List Char) (hx : x ≠ [])
    (H : ∀ s, s ≠ [] → s <:+ a → x.isPrefixOf (s ++ (x ++ b)) ≠ true)
    (hb : ¬ x <:+: b) :
    countOccs x (a ++ (x ++ b)) = 1 := by
  rw [countOccs_append_of_no_match x (x ++ b) a H,
    countOccs_self_append x b hx hb]

theorem prefixOfAppendLeft {u v w : List Char} (h : u <+: v ++ w)
    (hlen : u.length ≤ v.length) : u <+: v := by
  have h1 : u = (v ++ w).take u.length := by
    obtain ⟨t, ht⟩ := h
    rw [← ht, List.take_left]
  rw [List.take_append_eq_append_take,
    Nat.sub_eq_zero_of_le hlen] at h1
  simp only [List.take_zero, List.append_nil] at h1
  rw [h1]
  exact ⟨v.drop u.length, List.take_append_drop _ _⟩

theorem takeEqOfPrefixLe {u s R : List Char} (h : u <+: s ++ R)
    (hlen : s.length ≤ u.length) : u.take s.length = s := by
  obtain ⟨t, ht⟩ := h
  have h1 : (u ++ t).take s.length = s := by rw [ht, List.take_left]
  rw [List.take_append_of_le_length hlen] at h1
  exact h1

theorem dropPrefixMono {u w : List Char} (k : Nat) (h : u <+: w)
    (hk : k ≤ u.length) : u.drop k <+: w.drop k := by
  obtain ⟨t, ht⟩ := h
  refine ⟨t, ?_⟩
  rw [← ht, List.drop_append_of_le_length hk]

theorem replaceAll_has_r (p r : List Char) (hp : p ≠ []) :
    ∀ l : List Char, p <:+: l → r <:+: replaceAll p r l := by
  intro l
  induction l with
  | nil => intro h; exact absurd (List.infix_nil.mp h) hp
  | cons c rest ih =>
    intro h
    rw [replaceAll_cons]
    by_cases hpre : p.isPrefixOf (c :: rest) = true
    · rw [if_pos hpre]
      exact ⟨[], replaceAll p r (rest.drop (p.length - 1)), by simp⟩
    · rw [if_neg hpre]
      have hrest : p <:+: rest := by
        rcases subConsIff.mp h with hl | hr
        · exact absurd (isPrefixOfIff.mpr hl) hpre
        · exact hr
      exact subConsIff.mpr (Or.inr (ih hrest))

end RmlUi

/-- Claim C4: for every valuation of the other options, enabling
`with_thirdparty_containers` adds exactly the two pinned requirements
`robin-hood-hashing/3.11.3` and `itlib/1.11.4` (and nothing else) to the
declared requirement list, and disabling it declares neither. -/
theorem claim_C4 : ∀ o : RmlUi.OptionValues,
    ∃ a b,
      RmlUi.requirements { o with with_thirdparty_containers := false } = a ++ b ∧
      RmlUi.requirements { o with with_thirdparty_containers := true } =
        a ++ [("robin-hood-hashing", "3.11.3"), ("itlib", "1.11.4")] ++ b ∧
      ("robin-hood-hashing", "3.11.3") ∉ a ++ b ∧
      ("itlib", "1.11.4") ∉ a ++ b := by
  intro o
  rcases o with ⟨s, f, bs, lua, fe, m, tpc, pch, tr⟩
  cases fe <;> cases lua <;>
    first
    | exact ⟨[("freetype", "[>=2.10.4 <3]")], [], rfl, rfl, by decide, by decide⟩
    | exact ⟨[("freetype", "[>=2.10.4 <3]")], [("lua", "5.4.7")],
        rfl, rfl, by decide, by decide⟩
    | exact ⟨[], [], rfl, rfl, by decide, by decide⟩
    | exact ⟨[], [("lua", "5.4.7")], rfl, rfl, by decide, by decide⟩

/-- Claim C5: the declared default of `fPIC` is `True`; after `config_options`
runs, every non-Windows platform keeps `fPIC` at that default, while on
Windows the option is deleted from the effective option set. -/
theorem claim_C5 :
    RmlUi.default_options.fPIC = some true ∧
    (∀ osName : String, osName ≠ "Windows" →
      (RmlUi.config_options osName RmlUi.default_options).fPIC = some true) ∧
    (∀ opts : RmlUi.OptionValues,
      (RmlUi.config_options "Windows" opts).fPIC = none) := by
  refine ⟨rfl, ?_, ?_⟩
  · intro osName h
    simp [RmlUi.config_options, RmlUi.default_options, h]
  · intro opts
    simp [RmlUi.config_options]

/-- Witness for C5 at the concrete platform `"Linux"`. -/
theorem claim_C5_witness :
    ("Linux" : String) ≠ "Windows" ∧
    (RmlUi.config_options "Linux" RmlUi.default_options).fPIC = some true :=
  ⟨by decide, claim_C5.2.1 "Linux" (by decide)⟩

/-- Claim C6: with `font_engine = "none"`, `with_thirdparty_containers = False`
and `with_lua_bindings = False`, the requirement list is empty and the
toolchain maps `RMLUI_FONT_ENGINE` to `"none"`, `RMLUI_THIRDPARTY_CONTAINERS`
to `False` and `RMLUI_LUA_BINDINGS` to `False`. -/
theorem claim_C6 :
    RmlUi.requirements
      { RmlUi.default_options with
        font_engine := RmlUi.FontEngine.noneEngine
        with_thirdparty_containers := false
        with_lua_bindings := false } = [] ∧
    RmlUi.tcGet (RmlUi.toolchain_variables
      { RmlUi.default_options with
        font_engine := RmlUi.FontEngine.noneEngine
        with_thirdparty_containers := false
        with_lua_bindings := false }) "RMLUI_FONT_ENGINE" =
      some (RmlUi.TCValue.str "none") ∧
    RmlUi.tcGet (RmlUi.toolchain_variables
      { RmlUi.default_options with
        font_engine := RmlUi.FontEngine.noneEngine
        with_thirdparty_containers := false
        with_lua_bindings := false }) "RMLUI_THIRDPARTY_CONTAINERS" =
      some (RmlUi.TCValue.bool false) ∧
    RmlUi.tcGet (RmlUi.toolchain_variables
      { RmlUi.default_options with
        font_engine := RmlUi.FontEngine.noneEngine
        with_thirdparty_containers := false
        with_lua_bindings := false }) "RMLUI_LUA_BINDINGS" =
      some (RmlUi.TCValue.bool false) := by
  refine ⟨rfl, rfl, rfl, rfl⟩

/-- Claim C7: for every option valuation and any collected library list, the
published define list contains `RMLUI_STATIC_LIB` exactly when `shared` is
`False`. -/
theorem claim_C7 : ∀ (libs : List String) (o : RmlUi.OptionValues),
    "RMLUI_STATIC_LIB" ∈ (RmlUi.package_info libs o).defines ↔ o.shared = false := by
  intro libs o
  rcases o with ⟨s, f, bs, lua, fe, m, tpc, pch, tr⟩
  cases s <;> simp [RmlUi.package_info]

/-- Claim C8: for every option valuation, the toolchain variable mapping binds
`RMLUI_WARNINGS_AS_ERRORS` to `False`; no user option influences it. -/
theorem claim_C8 : ∀ o : RmlUi.OptionValues,
    RmlUi.tcGet (RmlUi.toolchain_variables o) "RMLUI_WARNINGS_AS_ERRORS" =
      some (RmlUi.TCValue.bool false) := by
  intro o
  rfl

/-- Claim C9: `validate` succeeds when no `compiler.cppstd` is set, and for a
set standard it raises a configuration error exactly when the standard is
below C++14. -/
theorem claim_C9 :
    RmlUi.validate none = Except.ok () ∧
    (∀ v : Nat,
      (∃ e, RmlUi.validate (some v) = Except.error e) ↔ v < 14) := by
  refine ⟨rfl, fun v => ⟨?_, ?_⟩⟩
  · rintro ⟨e, he⟩
    by_cases h : v < 14
    · exact h
    · simp [RmlUi.validate, RmlUi.check_min_cppstd, h] at he
  · intro h
    refine ⟨"current cppstd does not meet the required minimum", ?_⟩
    simp [RmlUi.validate, RmlUi.check_min_cppstd, h]

/-- Claim C10: under the declared defaults the recipe requires exactly
`freetype/[>=2.10.4 <3]`, `robin-hood-hashing/3.11.3` and `itlib/1.11.4`, in
that order; and for every option valuation at most four requirements are
declared, with no duplicated package name. -/
theorem claim_C10 :
    RmlUi.requirements RmlUi.default_options =
      [("freetype", "[>=2.10.4 <3]"), ("robin-hood-hashing", "3.11.3"),
       ("itlib", "1.11.4")] ∧
    ∀ o : RmlUi.OptionValues,
      (RmlUi.requirements o).length ≤ 4 ∧
      ((RmlUi.requirements o).map Prod.fst).Nodup := by
  refine ⟨by decide, ?_⟩
  intro o
  rcases o with ⟨s, f, bs, lua, fe, m, tpc, pch, tr⟩
  cases fe <;> cases lua <;> cases tpc <;>
    exact ⟨of_decide_eq_true rfl, of_decide_eq_true rfl⟩

namespace RmlUi

theorem marker_ne_nil : marker ≠ [] := by decide

theorem injection_ne_nil : injection ≠ [] := by decide

theorem helper_tag_in_injection : containsSub helper_tag injection = true := by
  decide

theorem injection_border : ∀ d : Nat, d < injection.length → 0 < d →
    (injection.drop d).isPrefixOf injection = true →
    containsSub helper_tag (injection.take d) = true := by
  decide

/-- Claim C1: the patch step is idempotent: a content that already contains
the helper tag is left unchanged and not re-saved, hence applying the patch
step to the outcome of any successful application changes nothing. -/
theorem claim_C1 : ∀ source_folder content : List Char,
    (containsSub helper_tag content = true →
      sourcePatchStep source_folder content =
        { raised := none, content := content, saved := false }) ∧
    ((sourcePatchStep source_folder content).raised = none →
      sourcePatchStep source_folder
          ((sourcePatchStep source_folder content).content) =
        { raised := none,
          content := (sourcePatchStep source_folder content).content,
          saved := false }) := by
  intro sf c
  have noop : ∀ c' : List Char, containsSub helper_tag c' = true →
      sourcePatchStep sf c' = { raised := none, content := c', saved := false } := by
    intro c' h
    simp [sourcePatchStep, h]
  refine ⟨noop c, ?_⟩
  intro hnone
  by_cases h1 : containsSub helper_tag c = true
  · rw [noop c h1]
    exact noop c h1
  · have h1' : containsSub helper_tag c = false := by
      rw [Bool.not_eq_true] at h1
      exact h1
    by_cases h2 : containsSub marker c = true
    · have hres : (sourcePatchStep sf c).content =
          replaceAll marker (marker ++ injection) c := by
        simp [sourcePatchStep, h1', h2]
      have hhelp : helper_tag <:+: replaceAll marker (marker ++ injection) c := by
        have hinj : (marker ++ injection) <:+:
            replaceAll marker (marker ++ injection) c :=
          replaceAll_has_r marker (marker ++ injection) marker_ne_nil c
            (containsSubIff.mp h2)
        have h3 : helper_tag <:+: marker ++ injection :=
          (containsSubIff.mp helper_tag_in_injection).trans ⟨marker, [], by simp⟩
        exact h3.trans hinj
      have hc' : containsSub helper_tag ((sourcePatchStep sf c).content) = true := by
        rw [hres]
        exact containsSubIff.mpr hhelp
      exact noop _ hc'
    · have h2' : containsSub marker c = false := by
        rw [Bool.not_eq_true] at h2
        exact h2
      exfalso
      rw [show sourcePatchStep sf c =
          { raised := some (patch_err_msg (core_cmake sf)),
            content := c, saved := false } from by
        simp [sourcePatchStep, h1', h2']] at hnone
      simp at hnone

/-- Witness for C1: a file that is just the helper tag is left unchanged, and
re-running the step after patching a file that is just the anchor is a no-op. -/
theorem claim_C1_witness :
    containsSub helper_tag helper_tag = true ∧
    sourcePatchStep [] helper_tag =
      { raised := none, content := helper_tag, saved := false } ∧
    (sourcePatchStep [] marker).raised = none ∧
    sourcePatchStep [] ((sourcePatchStep [] marker).content) =
      { raised := none, content := (sourcePatchStep [] marker).content,
        saved := false } :=
  ⟨by decide, (claim_C1 [] helper_tag).1 (by decide), by decide,
    (claim_C1 [] marker).2 (by decide)⟩

/-- Claim C2: on content containing neither the helper tag nor the anchor
marker, the patch step raises the configuration error, whose message contains
both the target file path and the missing marker; the file content is
unchanged and nothing is written back. -/
theorem claim_C2 : ∀ source_folder content : List Char,
    containsSub helper_tag content = false →
    containsSub marker content = false →
    sourcePatchStep source_folder content =
      { raised := some (patch_err_msg (core_cmake source_folder)),
        content := content, saved := false } ∧
    core_cmake source_folder <:+: patch_err_msg (core_cmake source_folder) ∧
    marker <:+: patch_err_msg (core_cmake source_folder) := by
  intro sf c h1 h2
  refine ⟨by simp [sourcePatchStep, h1, h2], ?_, ?_⟩
  · exact ⟨"Upstream changed; cannot patch ".toList,
      " (marker \x27".toList ++ marker ++ "\x27 not found)".toList,
      by simp [patch_err_msg]⟩
  · exact ⟨"Upstream changed; cannot patch ".toList ++ core_cmake sf ++
      " (marker \x27".toList, "\x27 not found)".toList,
      by simp [patch_err_msg]⟩

/-- Witness for C2 at a concrete unpatchable content. -/
theorem claim_C2_witness :
    containsSub helper_tag "no anchor here".toList = false ∧
    containsSub marker "no anchor here".toList = false ∧
    (sourcePatchStep "/tmp/src".toList "no anchor here".toList =
      { raised := some (patch_err_msg (core_cmake "/tmp/src".toList)),
        content := "no anchor here".toList, saved := false } ∧
     core_cmake "/tmp/src".toList <:+:
       patch_err_msg (core_cmake "/tmp/src".toList) ∧
     marker <:+: patch_err_msg (core_cmake "/tmp/src".toList)) :=
  ⟨by decide, by decide,
    claim_C2 "/tmp/src".toList "no anchor here".toList (by decide) (by decide)⟩

/-- Claim C3 (amended): for every content that contains the anchor marker
exactly once and does not contain the helper tag, the patch step succeeds,
writes the file, inserts the generated block exactly once immediately after
the anchor occurrence, and the result contains exactly one copy of the
injected block.  As literally stated — for every content merely containing
the anchor — the claim fails; see the counterexample with two anchors. -/
theorem claim_C3 : ∀ source_folder content : List Char,
    countOccs marker content = 1 →
    containsSub helper_tag content = false →
    ∃ pre post,
      content = pre ++ marker ++ post ∧
      (sourcePatchStep source_folder content).raised = none ∧
      (sourcePatchStep source_folder content).saved = true ∧
      (sourcePatchStep source_folder content).content =
        pre ++ marker ++ injection ++ post ∧
      countOccs injection ((sourcePatchStep source_folder content).content) = 1 := by
  intro sf c h1 h2
  obtain ⟨pre, post, hdecomp, hpost0, hrep⟩ :=
    countOccs_one_split marker (marker ++ injection) marker_ne_nil c h1
  have hmarkin : containsSub marker c = true :=
    containsSubIff.mpr ⟨pre, post, hdecomp.symm⟩
  have hstep : sourcePatchStep sf c =
      { raised := none, content := replaceAll marker (marker ++ injection) c,
        saved := true } := by
    simp [sourcePatchStep, h2, hmarkin]
  have hcontent : (sourcePatchStep sf c).content =
      pre ++ (marker ++ injection) ++ post := by
    rw [hstep]
    exact hrep
  have hhelperinj : helper_tag <:+: injection :=
    containsSubIff.mp helper_tag_in_injection
  have hpm : (pre ++ marker) <+: c := ⟨post, by rw [hdecomp]⟩
  have hpost_suf : post <:+ c := ⟨pre ++ marker, by rw [hdecomp]⟩
  have hnohelper : ¬ helper_tag <:+: c := fun hh => by
    simp [containsSubIff.mpr hh] at h2
  refine ⟨pre, post, hdecomp, by rw [hstep], by rw [hstep], ?_, ?_⟩
  · rw [hcontent]
    simp
  · rw [hcontent]
    rw [show pre ++ (marker ++ injection) ++ post =
        (pre ++ marker) ++ (injection ++ post) from by simp]
    refine countOccs_sandwich injection (pre ++ marker) post injection_ne_nil ?_ ?_
    · intro s hs hsuf hbad
      have hP : injection <+: s ++ (injection ++ post) := isPrefixOfIff.mp hbad
      have hsinfix : s <:+: c := hsuf.isInfix.trans hpm.isInfix
      by_cases hlen : injection.length ≤ s.length
      · have hps : injection <+: s := prefixOfAppendLeft hP hlen
        exact hnohelper ((hhelperinj.trans hps.isInfix).trans hsinfix)
      · have hlen' : s.length < injection.length := Nat.lt_of_not_le hlen
        have hs0 : 0 < s.length := List.length_pos.mpr hs
        have htake : injection.take s.length = s :=
          takeEqOfPrefixLe hP (Nat.le_of_lt hlen')
        have hdropP : injection.drop s.length <+:
            (s ++ (injection ++ post)).drop s.length :=
          dropPrefixMono s.length hP (Nat.le_of_lt hlen')
        rw [List.drop_left] at hdropP
        have hdro : injection.drop s.length <+: injection :=
          prefixOfAppendLeft hdropP (by simp [List.length_drop])
        have hbord := injection_border s.length hlen' hs0 (isPrefixOfIff.mpr hdro)
        rw [htake] at hbord
        exact hnohelper ((containsSubIff.mp hbord).trans hsinfix)
    · intro hin
      exact hnohelper ((hhelperinj.trans hin).trans hpost_suf.isInfix)

/-- Counterexample to C3 as literally stated: a content with two anchor
occurrences (and no helper tag) gets the block injected twice, not once. -/
theorem claim_C3_counterexample :
    containsSub marker (marker ++ marker) = true ∧
    containsSub helper_tag (marker ++ marker) = false ∧
    countOccs injection ((sourcePatchStep [] (marker ++ marker)).content) = 2 := by
  refine ⟨by decide, by decide, by decide⟩

/-- Witness for the amended C3 at a concrete single-anchor content. -/
theorem claim_C3_witness :
    countOccs marker "A\nunset(rmlui_core_TYPE)\nB".toList = 1 ∧
    containsSub helper_tag "A\nunset(rmlui_core_TYPE)\nB".toList = false ∧
    (∃ pre post,
      "A\nunset(rmlui_core_TYPE)\nB".toList = pre ++ marker ++ post ∧
      (sourcePatchStep [] "A\nunset(rmlui_core_TYPE)\nB".toList).raised = none ∧
      (sourcePatchStep [] "A\nunset(rmlui_core_TYPE)\nB".toList).saved = true ∧
      (sourcePatchStep [] "A\nunset(rmlui_core_TYPE)\nB".toList).content =
        pre ++ marker ++ injection ++ post ∧
      countOccs injection
        ((sourcePatchStep [] "A\nunset(rmlui_core_TYPE)\nB".toList).content) = 1) :=
  ⟨by decide, by decide,
    claim_C3 [] "A\nunset(rmlui_core_TYPE)\nB".toList (by decide) (by decide)⟩

end RmlUi
